import Mathlib

/-
Shallow embedding of the aicpp library (src/loss.cpp, src/activation.cpp).
Sequences become `List ℝ`; C++ `std::views::zip` / `zip_transform` truncate at
the shorter range, which `List.zip` / `List.zipWith` also do, so no length
precondition is baked into any definition.  `std::ranges::fold_right(b, e, 0,
std::plus<>())` is `List.foldr (· + ·) 0`; the hand-written range-for loops
accumulating into a local variable are `List.foldl`.  Floating point is
modelled by exact real arithmetic.
-/

noncomputable section

namespace loss

/-- Reduction engine of the first revision of loss.cpp (`_apply_and_sum`):
zip-transform the two ranges through `f`, then fold_right the resulting view
with `std::plus` starting from `0`. -/
def apply_and_sum (f : ℝ → ℝ → ℝ) (r0 r1 : List ℝ) : ℝ :=
  (List.zipWith f r0 r1).foldr (· + ·) 0

/-- Reduction engine of the second revision (`apply_and_accumulate`, hidden in
an anonymous namespace).  The C++ template is variadic; every call site in the
library passes exactly two ranges, which is the arity embedded here.  The body
is the same zip_transform / fold_right combination as `apply_and_sum`. -/
def apply_and_accumulate (f : ℝ → ℝ → ℝ) (r0 r1 : List ℝ) : ℝ :=
  (List.zipWith f r0 r1).foldr (· + ·) 0

namespace distance

/-- `loss::distance::manhattan`. -/
def manhattan (t1 t2 : ℝ) : ℝ := |t1 - t2|

end distance

/-- `loss::L1`, the hand-written loop: accumulate `|gnd - pred|` over the
zipped ranges starting from `l1 = 0`. -/
def L1 (ground predicted : List ℝ) : ℝ :=
  (List.zip ground predicted).foldl (fun l1 gp => l1 + |gp.1 - gp.2|) 0

/-- `loss::L1_f`: the engine applied to the manhattan distance. -/
def L1_f (ground predicted : List ℝ) : ℝ :=
  apply_and_accumulate distance.manhattan ground predicted

/-- `loss::L2`, the hand-written loop: accumulate `pow(gnd - pred, 2)` and take
`sqrt` of the total. -/
def L2 (ground predicted : List ℝ) : ℝ :=
  Real.sqrt ((List.zip ground predicted).foldl (fun l2 gp => l2 + (gp.1 - gp.2) ^ 2) 0)

/-- `loss::L2_f`: `sqrt` of the engine applied to squared differences. -/
def L2_f (ground predicted : List ℝ) : ℝ :=
  Real.sqrt (apply_and_accumulate (fun a b => (a - b) ^ 2) ground predicted)

/-- The `hbr` lambda shared by `loss::huber` and `loss::huber_f`: the branch
compares the signed difference (not its absolute value) with the threshold. -/
def hbr (threshold diff : ℝ) : ℝ :=
  if diff ≤ threshold then diff ^ 2 / 2 else threshold * |diff| - threshold / 2

/-- `loss::huber`, the hand-written loop over `hbr (gnd - pred)`. -/
def huber (ground predicted : List ℝ) (threshold : ℝ) : ℝ :=
  (List.zip ground predicted).foldl (fun h gp => h + hbr threshold (gp.1 - gp.2)) 0

/-- `loss::huber_f`: the engine applied to the binary form of `hbr`. -/
def huber_f (ground predicted : List ℝ) (threshold : ℝ) : ℝ :=
  apply_and_accumulate (fun a b => hbr threshold (a - b)) ground predicted

/-- `loss::bce`, the hand-written loop: accumulate
`gnd*log(pred) + (gnd - 1)*log(1 - pred)`, then negate and divide by the size
of `ground`. -/
def bce (ground predicted : List ℝ) : ℝ :=
  -((List.zip ground predicted).foldl
      (fun b gp => b + (gp.1 * Real.log gp.2 + (gp.1 - 1) * Real.log (1 - gp.2))) 0) /
    ground.length

/-- `loss::bce_f`: the engine applied to the same element function, then the
same post-processing. -/
def bce_f (ground predicted : List ℝ) : ℝ :=
  -(apply_and_accumulate
      (fun gnd pred => gnd * Real.log pred + (gnd - 1) * Real.log (1 - pred))
      ground predicted) / ground.length

/-- `loss::ce`, the hand-written loop: accumulate `gnd*log(pred)`, then negate
and divide by the size of `ground`. -/
def ce (ground predicted : List ℝ) : ℝ :=
  -((List.zip ground predicted).foldl (fun c gp => c + gp.1 * Real.log gp.2) 0) /
    ground.length

/-- `loss::ce_f`: the engine applied to `gnd*log(pred)`, same post-processing. -/
def ce_f (ground predicted : List ℝ) : ℝ :=
  -(apply_and_accumulate (fun gnd pred => gnd * Real.log pred) ground predicted) /
    ground.length

/-- `loss::softmax`: exponentiate every element, fold_right the exponentials
with `std::plus` from `0`, and divide each exponential by that sum. -/
def softmax (predicted : List ℝ) : List ℝ :=
  (predicted.map Real.exp).map
    (fun pred => pred / (predicted.map Real.exp).foldr (· + ·) 0)

/-- `loss::kl`: the engine applied to `gnd*log(gnd/pred)`. -/
def kl (ground predicted : List ℝ) : ℝ :=
  apply_and_accumulate (fun gnd pred => gnd * Real.log (gnd / pred)) ground predicted

/-- `loss::hinge`: the engine applied to `max(0, 1 - gnd*pred)`. -/
def hinge (ground predicted : List ℝ) : ℝ :=
  apply_and_accumulate (fun gnd pred => max 0 (1 - gnd * pred)) ground predicted

/-- `loss::contrastive`: `d = L2_f(featuresA, featuresB)`; `d^2` on the
positive branch, `max(margin - d, 0)^2` otherwise. -/
def contrastive (ground : Bool) (featuresA featuresB : List ℝ) (margin : ℝ) : ℝ :=
  if ground then L2_f featuresA featuresB ^ 2
  else max (margin - L2_f featuresA featuresB) 0 ^ 2

/-- `loss::tr` (triplet ranking): `max(dist_pos - dist_neg + margin, 0)` with
both distances computed by `L2_f`. -/
def tr (anchor positive negative : List ℝ) (margin : ℝ) : ℝ :=
  max (L2_f anchor positive - L2_f anchor negative + margin) 0

end loss

namespace activation

/-- `activation::sigmoid`: `1/(1 + exp(-z))`. -/
def sigmoid (z : ℝ) : ℝ := 1 / (1 + Real.exp (-z))

/-- `activation::glu`: `z * sigmoid(z)`. -/
def glu (z : ℝ) : ℝ := z * sigmoid z

/-- `activation::swish`: delegates to `glu`. -/
def swish (z : ℝ) : ℝ := glu z

end activation

namespace loss

lemma foldr_add_eq_sum (l : List ℝ) : l.foldr (· + ·) 0 = l.sum := by
  rw [List.sum_eq_foldr]

lemma apply_and_sum_eq_sum (f : ℝ → ℝ → ℝ) (r0 r1 : List ℝ) :
    apply_and_sum f r0 r1 = (List.zipWith f r0 r1).sum := by
  rw [apply_and_sum, foldr_add_eq_sum]

lemma apply_and_accumulate_eq_sum (f : ℝ → ℝ → ℝ) (r0 r1 : List ℝ) :
    apply_and_accumulate f r0 r1 = (List.zipWith f r0 r1).sum := by
  rw [apply_and_accumulate, foldr_add_eq_sum]

lemma foldl_add_map {α : Type} (g : α → ℝ) :
    ∀ (l : List α) (a : ℝ), l.foldl (fun acc x => acc + g x) a = a + (l.map g).sum := by
  intro l
  induction l with
  | nil => intro a; simp
  | cons x l ih => intro a; simp [ih, add_assoc]

lemma foldl_zip_eq_sum_zipWith (f : ℝ → ℝ → ℝ) :
    ∀ (l1 l2 : List ℝ) (a : ℝ),
      (List.zip l1 l2).foldl (fun acc q => acc + f q.1 q.2) a
        = a + (List.zipWith f l1 l2).sum := by
  intro l1
  induction l1 with
  | nil => intro l2 a; simp
  | cons x l1 ih =>
    intro l2 a
    cases l2 with
    | nil => simp
    | cons y l2 => simp [ih, add_assoc]

lemma zipWith_eq_take_min (f : ℝ → ℝ → ℝ) (l1 l2 : List ℝ) :
    List.zipWith f l1 l2
      = List.zipWith f (l1.take (min l1.length l2.length))
          (l2.take (min l1.length l2.length)) := by
  rw [← List.take_zipWith, ← List.length_zipWith (f := f), List.take_length]

lemma zipWith_eq_map_range (f : ℝ → ℝ → ℝ) :
    ∀ (l1 l2 : List ℝ), l1.length = l2.length →
      List.zipWith f l1 l2
        = (List.range l1.length).map (fun i => f (l1.getD i 0) (l2.getD i 0)) := by
  intro l1
  induction l1 with
  | nil => intro l2 h; simp
  | cons x l1 ih =>
    intro l2 h
    cases l2 with
    | nil => simp at h
    | cons y l2 =>
      have h2 : l1.length = l2.length := by simpa using h
      simp only [List.zipWith_cons_cons, List.length_cons, List.range_succ_eq_map,
        List.map_cons, List.map_map, Function.comp_def, Nat.succ_eq_add_one,
        List.getD_cons_zero, List.getD_cons_succ, ih l2 h2]

lemma sum_zipWith_nonneg (f : ℝ → ℝ → ℝ) (hf : ∀ a b, 0 ≤ f a b) :
    ∀ (l1 l2 : List ℝ), 0 ≤ (List.zipWith f l1 l2).sum := by
  intro l1
  induction l1 with
  | nil => intro l2; simp
  | cons x l1 ih =>
    intro l2
    cases l2 with
    | nil => simp
    | cons y l2 => simpa using add_nonneg (hf x y) (ih l2)

lemma sum_zipWith_self_zero (f : ℝ → ℝ → ℝ) (hf : ∀ a, f a a = 0) :
    ∀ l : List ℝ, (List.zipWith f l l).sum = 0 := by
  intro l
  induction l with
  | nil => simp
  | cons x l ih => simp [hf, ih]

lemma L1_eq_sum (g p : List ℝ) :
    L1 g p = (List.zipWith (fun a b => |a - b|) g p).sum := by
  rw [L1, foldl_zip_eq_sum_zipWith (fun a b => |a - b|), zero_add]

lemma L2_eq_sum (g p : List ℝ) :
    L2 g p = Real.sqrt ((List.zipWith (fun a b => (a - b) ^ 2) g p).sum) := by
  rw [L2, foldl_zip_eq_sum_zipWith (fun a b => (a - b) ^ 2), zero_add]

lemma huber_eq_sum (g p : List ℝ) (t : ℝ) :
    huber g p t = (List.zipWith (fun a b => hbr t (a - b)) g p).sum := by
  rw [huber, foldl_zip_eq_sum_zipWith (fun a b => hbr t (a - b)), zero_add]

lemma bce_eq_sum (g p : List ℝ) :
    bce g p = -((List.zipWith
        (fun gnd pred => gnd * Real.log pred + (gnd - 1) * Real.log (1 - pred)) g p).sum)
      / g.length := by
  rw [bce, foldl_zip_eq_sum_zipWith
    (fun gnd pred => gnd * Real.log pred + (gnd - 1) * Real.log (1 - pred)), zero_add]

lemma ce_eq_sum (g p : List ℝ) :
    ce g p = -((List.zipWith (fun gnd pred => gnd * Real.log pred) g p).sum) / g.length := by
  rw [ce, foldl_zip_eq_sum_zipWith (fun gnd pred => gnd * Real.log pred), zero_add]

lemma L2_eq_L2_f (g p : List ℝ) : L2 g p = L2_f g p := by
  rw [L2_eq_sum, L2_f, apply_and_accumulate_eq_sum]

lemma hbr_nonneg {t : ℝ} (ht : t = 0 ∨ 1 / 2 ≤ t) (d : ℝ) : 0 ≤ hbr t d := by
  rw [hbr]
  split
  · positivity
  · next hd =>
    push_neg at hd
    rcases ht with rfl | ht
    · simp
    · have hd2 : (1 : ℝ) / 2 ≤ |d| := le_trans ht (le_trans hd.le (le_abs_self d))
      have ht0 : (0 : ℝ) ≤ t := by linarith
      nlinarith

end loss

/-- C1, counterexample: the reduction engines perform no length check and
raise no error.  Applied to the length-3 and length-1 sequences `[2, 3, 4]`
and `[5]`, both engines return the ordinary value `10 = 2 * 5`: the call
returns normally (reducing over the single zipped pair) instead of failing
with a `LengthMismatch` error. -/
theorem C1_counterexample :
    loss.apply_and_sum (fun a b => a * b) [2, 3, 4] [5] = 10 ∧
    loss.apply_and_accumulate (fun a b => a * b) [2, 3, 4] [5] = 10 := by
  constructor <;> norm_num [loss.apply_and_sum, loss.apply_and_accumulate]

/-- C1 (amended): a call to either reduction engine with two sequences of
differing lengths does not fail; no length check exists, and the call returns
normally, reducing over exactly the first `min(N, M)` element pairs because
the zip truncates at the shorter sequence. -/
theorem C1_no_length_check (f : ℝ → ℝ → ℝ) (r0 r1 : List ℝ)
    (_h : r0.length ≠ r1.length) :
    loss.apply_and_sum f r0 r1
      = loss.apply_and_sum f (r0.take (min r0.length r1.length))
          (r1.take (min r0.length r1.length)) ∧
    loss.apply_and_accumulate f r0 r1
      = loss.apply_and_accumulate f (r0.take (min r0.length r1.length))
          (r1.take (min r0.length r1.length)) := by
  constructor
  · rw [loss.apply_and_sum_eq_sum, loss.apply_and_sum_eq_sum,
      ← loss.zipWith_eq_take_min]
  · rw [loss.apply_and_accumulate_eq_sum, loss.apply_and_accumulate_eq_sum,
      ← loss.zipWith_eq_take_min]

/-- Witness for C1_no_length_check at `f = (· + ·)`, `r0 = [1, 2]`,
`r1 = [3]`. -/
theorem C1_no_length_check_witness :
    loss.apply_and_sum (fun a b => a + b) [(1 : ℝ), 2] [3]
      = loss.apply_and_sum (fun a b => a + b)
          (List.take (min (List.length [(1 : ℝ), 2]) (List.length [(3 : ℝ)])) [(1 : ℝ), 2])
          (List.take (min (List.length [(1 : ℝ), 2]) (List.length [(3 : ℝ)])) [(3 : ℝ)]) ∧
    loss.apply_and_accumulate (fun a b => a + b) [(1 : ℝ), 2] [3]
      = loss.apply_and_accumulate (fun a b => a + b)
          (List.take (min (List.length [(1 : ℝ), 2]) (List.length [(3 : ℝ)])) [(1 : ℝ), 2])
          (List.take (min (List.length [(1 : ℝ), 2]) (List.length [(3 : ℝ)])) [(3 : ℝ)]) :=
  C1_no_length_check (fun a b => a + b) [1, 2] [3] (by norm_num)

/-- C2: on equal-length sequences both reduction engines return the left fold
that starts from the additive identity `0` and adds `f` applied to the `i`-th
pair of elements in strictly increasing index order from `0` to `N - 1`. -/
theorem C2_engine_left_fold (f : ℝ → ℝ → ℝ) (r0 r1 : List ℝ)
    (h : r0.length = r1.length) :
    loss.apply_and_sum f r0 r1
      = (List.range r0.length).foldl
          (fun acc i => acc + f (r0.getD i 0) (r1.getD i 0)) 0 ∧
    loss.apply_and_accumulate f r0 r1
      = (List.range r0.length).foldl
          (fun acc i => acc + f (r0.getD i 0) (r1.getD i 0)) 0 := by
  constructor
  · rw [loss.apply_and_sum_eq_sum, loss.zipWith_eq_map_range f r0 r1 h,
      loss.foldl_add_map, zero_add]
  · rw [loss.apply_and_accumulate_eq_sum, loss.zipWith_eq_map_range f r0 r1 h,
      loss.foldl_add_map, zero_add]

/-- Witness for C2_engine_left_fold at `f = (· * ·)`, `r0 = [1, 2]`,
`r1 = [3, 4]`. -/
theorem C2_engine_left_fold_witness :
    loss.apply_and_sum (fun a b => a * b) [(1 : ℝ), 2] [3, 4]
      = (List.range (List.length [(1 : ℝ), 2])).foldl
          (fun acc i => acc + (List.getD [(1 : ℝ), 2] i 0) * (List.getD [(3 : ℝ), 4] i 0)) 0 ∧
    loss.apply_and_accumulate (fun a b => a * b) [(1 : ℝ), 2] [3, 4]
      = (List.range (List.length [(1 : ℝ), 2])).foldl
          (fun acc i => acc + (List.getD [(1 : ℝ), 2] i 0) * (List.getD [(3 : ℝ), 4] i 0)) 0 :=
  C2_engine_left_fold (fun a b => a * b) [1, 2] [3, 4] (by norm_num)

/-- C9 (implicit): when the two sequences passed to a paired loss have
differing lengths `N` and `M`, the loss does not fail: it returns normally,
with its reduction running over exactly the first `min(N, M)` element pairs
(the zip stops at the shorter sequence).  For `bce` and `ce` the trailing
division still uses the length of `ground`. -/
theorem C9_losses_truncate (g p : List ℝ) (t : ℝ) (_h : g.length ≠ p.length) :
    loss.L1 g p = loss.L1 (g.take (min g.length p.length)) (p.take (min g.length p.length)) ∧
    loss.L2 g p = loss.L2 (g.take (min g.length p.length)) (p.take (min g.length p.length)) ∧
    loss.huber g p t
      = loss.huber (g.take (min g.length p.length)) (p.take (min g.length p.length)) t ∧
    loss.hinge g p
      = loss.hinge (g.take (min g.length p.length)) (p.take (min g.length p.length)) ∧
    loss.kl g p = loss.kl (g.take (min g.length p.length)) (p.take (min g.length p.length)) ∧
    loss.bce g p
      = -(loss.apply_and_sum
            (fun gnd pred => gnd * Real.log pred + (gnd - 1) * Real.log (1 - pred))
            (g.take (min g.length p.length)) (p.take (min g.length p.length))) / g.length ∧
    loss.ce g p
      = -(loss.apply_and_sum (fun gnd pred => gnd * Real.log pred)
            (g.take (min g.length p.length)) (p.take (min g.length p.length))) / g.length := by
  refine ⟨?_, ?_, ?_, ?_, ?_, ?_, ?_⟩
  · rw [loss.L1_eq_sum, loss.L1_eq_sum, ← loss.zipWith_eq_take_min]
  · rw [loss.L2_eq_sum, loss.L2_eq_sum, ← loss.zipWith_eq_take_min]
  · rw [loss.huber_eq_sum, loss.huber_eq_sum, ← loss.zipWith_eq_take_min]
  · simp only [loss.hinge, loss.apply_and_accumulate_eq_sum]
    rw [← loss.zipWith_eq_take_min]
  · simp only [loss.kl, loss.apply_and_accumulate_eq_sum]
    rw [← loss.zipWith_eq_take_min]
  · rw [loss.bce_eq_sum, loss.apply_and_sum_eq_sum, ← loss.zipWith_eq_take_min]
  · rw [loss.ce_eq_sum, loss.apply_and_sum_eq_sum, ← loss.zipWith_eq_take_min]

/-- Witness for C9_losses_truncate at `g = [1, 2]`, `p = [3]`, `t = 1`. -/
theorem C9_losses_truncate_witness :
    loss.L1 [(1 : ℝ), 2] [3]
      = loss.L1 (List.take (min (List.length [(1 : ℝ), 2]) (List.length [(3 : ℝ)])) [(1 : ℝ), 2])
          (List.take (min (List.length [(1 : ℝ), 2]) (List.length [(3 : ℝ)])) [(3 : ℝ)]) ∧
    loss.L2 [(1 : ℝ), 2] [3]
      = loss.L2 (List.take (min (List.length [(1 : ℝ), 2]) (List.length [(3 : ℝ)])) [(1 : ℝ), 2])
          (List.take (min (List.length [(1 : ℝ), 2]) (List.length [(3 : ℝ)])) [(3 : ℝ)]) ∧
    loss.huber [(1 : ℝ), 2] [3] 1
      = loss.huber
          (List.take (min (List.length [(1 : ℝ), 2]) (List.length [(3 : ℝ)])) [(1 : ℝ), 2])
          (List.take (min (List.length [(1 : ℝ), 2]) (List.length [(3 : ℝ)])) [(3 : ℝ)]) 1 ∧
    loss.hinge [(1 : ℝ), 2] [3]
      = loss.hinge
          (List.take (min (List.length [(1 : ℝ), 2]) (List.length [(3 : ℝ)])) [(1 : ℝ), 2])
          (List.take (min (List.length [(1 : ℝ), 2]) (List.length [(3 : ℝ)])) [(3 : ℝ)]) ∧
    loss.kl [(1 : ℝ), 2] [3]
      = loss.kl (List.take (min (List.length [(1 : ℝ), 2]) (List.length [(3 : ℝ)])) [(1 : ℝ), 2])
          (List.take (min (List.length [(1 : ℝ), 2]) (List.length [(3 : ℝ)])) [(3 : ℝ)]) ∧
    loss.bce [(1 : ℝ), 2] [3]
      = -(loss.apply_and_sum
            (fun gnd pred => gnd * Real.log pred + (gnd - 1) * Real.log (1 - pred))
            (List.take (min (List.length [(1 : ℝ), 2]) (List.length [(3 : ℝ)])) [(1 : ℝ), 2])
            (List.take (min (List.length [(1 : ℝ), 2]) (List.length [(3 : ℝ)])) [(3 : ℝ)]))
          / List.length [(1 : ℝ), 2] ∧
    loss.ce [(1 : ℝ), 2] [3]
      = -(loss.apply_and_sum (fun gnd pred => gnd * Real.log pred)
            (List.take (min (List.length [(1 : ℝ), 2]) (List.length [(3 : ℝ)])) [(1 : ℝ), 2])
            (List.take (min (List.length [(1 : ℝ), 2]) (List.length [(3 : ℝ)])) [(3 : ℝ)]))
          / List.length [(1 : ℝ), 2] :=
  C9_losses_truncate [1, 2] [3] 1 (by norm_num)

/-- C10 (implicit): under exact arithmetic the hand-written loop variant and
the reduction-engine variant of each loss agree on equal-length inputs:
`L1 = L1_f`, `L2 = L2_f`, `huber = huber_f`, `bce = bce_f`, `ce = ce_f`. -/
theorem C10_loop_engine_equiv (g p : List ℝ) (t : ℝ) (_h : g.length = p.length) :
    loss.L1 g p = loss.L1_f g p ∧
    loss.L2 g p = loss.L2_f g p ∧
    loss.huber g p t = loss.huber_f g p t ∧
    loss.bce g p = loss.bce_f g p ∧
    loss.ce g p = loss.ce_f g p := by
  refine ⟨?_, loss.L2_eq_L2_f g p, ?_, ?_, ?_⟩
  · rw [loss.L1_eq_sum, loss.L1_f, loss.apply_and_accumulate_eq_sum]
    rfl
  · rw [loss.huber_eq_sum, loss.huber_f, loss.apply_and_accumulate_eq_sum]
  · rw [loss.bce_eq_sum, loss.bce_f, loss.apply_and_accumulate_eq_sum]
  · rw [loss.ce_eq_sum, loss.ce_f, loss.apply_and_accumulate_eq_sum]

/-- Witness for C10_loop_engine_equiv at `g = [1, 2]`, `p = [3, 4]`, `t = 1`. -/
theorem C10_loop_engine_equiv_witness :
    loss.L1 [(1 : ℝ), 2] [3, 4] = loss.L1_f [(1 : ℝ), 2] [3, 4] ∧
    loss.L2 [(1 : ℝ), 2] [3, 4] = loss.L2_f [(1 : ℝ), 2] [3, 4] ∧
    loss.huber [(1 : ℝ), 2] [3, 4] 1 = loss.huber_f [(1 : ℝ), 2] [3, 4] 1 ∧
    loss.bce [(1 : ℝ), 2] [3, 4] = loss.bce_f [(1 : ℝ), 2] [3, 4] ∧
    loss.ce [(1 : ℝ), 2] [3, 4] = loss.ce_f [(1 : ℝ), 2] [3, 4] :=
  C10_loop_engine_equiv [1, 2] [3, 4] 1 (by norm_num)

namespace loss

lemma sum_abs_zero_iff :
    ∀ (l1 l2 : List ℝ), l1.length = l2.length →
      ((List.zipWith (fun a b => |a - b|) l1 l2).sum = 0 ↔ l1 = l2) := by
  intro l1
  induction l1 with
  | nil =>
    intro l2 h
    cases l2 with
    | nil => simp
    | cons y l2 => simp at h
  | cons x l1 ih =>
    intro l2 h
    cases l2 with
    | nil => simp at h
    | cons y l2 =>
      have h2 : l1.length = l2.length := by simpa using h
      simp only [List.zipWith_cons_cons, List.sum_cons, List.cons.injEq]
      constructor
      · intro hs
        have h1 : (0 : ℝ) ≤ |x - y| := abs_nonneg _
        have h3 : 0 ≤ (List.zipWith (fun a b => |a - b|) l1 l2).sum :=
          sum_zipWith_nonneg _ (fun a b => abs_nonneg _) l1 l2
        have hxy : |x - y| = 0 := by linarith
        have hrest : (List.zipWith (fun a b => |a - b|) l1 l2).sum = 0 := by linarith
        have hxy2 : x = y := by
          have := abs_eq_zero.mp hxy
          linarith
        exact ⟨hxy2, (ih l2 h2).mp hrest⟩
      · rintro ⟨rfl, rfl⟩
        simp [(ih l1 rfl).mpr rfl]

lemma softmax_eq_map (p : List ℝ) :
    softmax p = (p.map Real.exp).map (fun x => x / (p.map Real.exp).sum) := by
  simp only [softmax, foldr_add_eq_sum]

lemma exp_sum_pos (p : List ℝ) (hp : p ≠ []) : 0 < (p.map Real.exp).sum := by
  apply List.sum_pos
  · intro x hx
    obtain ⟨y, _, rfl⟩ := List.mem_map.mp hx
    exact Real.exp_pos y
  · simpa using hp

end loss

/-- C3, counterexample: `huber` is not non-negative for every threshold.  At
`ground = [1/5]`, `predicted = [0]`, `threshold = 1/10` the signed difference
`1/5` exceeds the threshold, the linear branch fires, and the result is
`1/10 * (1/5) - 1/20 = -3/100 < 0`. -/
theorem C3_counterexample : loss.huber [(1 : ℝ) / 5] [0] (1 / 10) < 0 := by
  have h1 : ¬ ((1 : ℝ) / 5 - 0 ≤ 1 / 10) := by norm_num
  simp only [loss.huber, List.zip_cons_cons, List.zip_nil_right, List.foldl_cons,
    List.foldl_nil, loss.hbr, if_neg h1]
  rw [abs_of_nonneg (by norm_num : (0 : ℝ) ≤ 1 / 5 - 0)]
  norm_num

/-- C3 (amended): for equal-length real sequences, `L1`, `L2` and `hinge` are
non-negative for all inputs, and `huber` is non-negative provided the
threshold is `0` or at least `1/2` (for thresholds in `(0, 1/2)` and negative
thresholds it can be negative, as the counterexample shows). -/
theorem C3_nonneg (g p : List ℝ) (t : ℝ) (_hlen : g.length = p.length)
    (ht : t = 0 ∨ 1 / 2 ≤ t) :
    0 ≤ loss.L1 g p ∧ 0 ≤ loss.L2 g p ∧ 0 ≤ loss.hinge g p ∧ 0 ≤ loss.huber g p t := by
  refine ⟨?_, ?_, ?_, ?_⟩
  · rw [loss.L1_eq_sum]
    exact loss.sum_zipWith_nonneg _ (fun a b => abs_nonneg _) g p
  · rw [loss.L2_eq_sum]
    exact Real.sqrt_nonneg _
  · rw [loss.hinge, loss.apply_and_accumulate_eq_sum]
    exact loss.sum_zipWith_nonneg _ (fun a b => le_max_left _ _) g p
  · rw [loss.huber_eq_sum]
    exact loss.sum_zipWith_nonneg _ (fun a b => loss.hbr_nonneg ht _) g p

/-- Witness for C3_nonneg at `g = [1]`, `p = [0]`, `t = 1`. -/
theorem C3_nonneg_witness :
    0 ≤ loss.L1 [(1 : ℝ)] [0] ∧ 0 ≤ loss.L2 [(1 : ℝ)] [0] ∧
    0 ≤ loss.hinge [(1 : ℝ)] [0] ∧ 0 ≤ loss.huber [(1 : ℝ)] [0] 1 :=
  C3_nonneg [1] [0] 1 rfl (Or.inr (by norm_num))

/-- C4: on equal-length sequences `huber` (and `huber_f`) equals the sum over
all indices of `h(diff)` with `diff = g - p`, where `h(diff) = diff^2/2` when
the signed difference satisfies `diff ≤ threshold`, and
`h(diff) = threshold*|diff| - threshold/2` otherwise: the branch compares the
signed difference, not its absolute value, with the threshold. -/
theorem C4_huber_formula (g p : List ℝ) (t : ℝ) (h : g.length = p.length) :
    loss.huber g p t
      = ((List.range g.length).map
          (fun i => if g.getD i 0 - p.getD i 0 ≤ t
            then (g.getD i 0 - p.getD i 0) ^ 2 / 2
            else t * |g.getD i 0 - p.getD i 0| - t / 2)).sum ∧
    loss.huber_f g p t
      = ((List.range g.length).map
          (fun i => if g.getD i 0 - p.getD i 0 ≤ t
            then (g.getD i 0 - p.getD i 0) ^ 2 / 2
            else t * |g.getD i 0 - p.getD i 0| - t / 2)).sum := by
  constructor
  · rw [loss.huber_eq_sum, loss.zipWith_eq_map_range _ g p h]
    simp only [loss.hbr]
  · rw [loss.huber_f, loss.apply_and_accumulate_eq_sum, loss.zipWith_eq_map_range _ g p h]
    simp only [loss.hbr]

/-- Witness for C4_huber_formula at `g = [1]`, `p = [0]`, `t = 2`. -/
theorem C4_huber_formula_witness :
    loss.huber [(1 : ℝ)] [0] 2
      = ((List.range (List.length [(1 : ℝ)])).map
          (fun i => if List.getD [(1 : ℝ)] i 0 - List.getD [(0 : ℝ)] i 0 ≤ 2
            then (List.getD [(1 : ℝ)] i 0 - List.getD [(0 : ℝ)] i 0) ^ 2 / 2
            else 2 * |List.getD [(1 : ℝ)] i 0 - List.getD [(0 : ℝ)] i 0| - 2 / 2)).sum ∧
    loss.huber_f [(1 : ℝ)] [0] 2
      = ((List.range (List.length [(1 : ℝ)])).map
          (fun i => if List.getD [(1 : ℝ)] i 0 - List.getD [(0 : ℝ)] i 0 ≤ 2
            then (List.getD [(1 : ℝ)] i 0 - List.getD [(0 : ℝ)] i 0) ^ 2 / 2
            else 2 * |List.getD [(1 : ℝ)] i 0 - List.getD [(0 : ℝ)] i 0| - 2 / 2)).sum :=
  C4_huber_formula [1] [0] 2 rfl

/-- C5, counterexample: on the empty input sequence `softmax` returns the
empty sequence, whose entries sum to `0`, not `1`; the claim fails for the
empty (finite, overflow-free) input. -/
theorem C5_counterexample : (loss.softmax ([] : List ℝ)).sum ≠ 1 := by
  norm_num [loss.softmax]

/-- C5 (amended): for every nonempty input sequence, `softmax` returns a
sequence of the same length whose `i`-th entry is `e^{x_i}` divided by the sum
of all `e^{x_j}`; every entry lies in `(0, 1]` and the entries sum to `1`. -/
theorem C5_softmax_normalizes (p : List ℝ) (hp : p ≠ []) :
    (loss.softmax p).length = p.length ∧
    (∀ i, i < p.length →
      (loss.softmax p).getD i 0 = Real.exp (p.getD i 0) / (p.map Real.exp).sum) ∧
    (∀ x ∈ loss.softmax p, 0 < x ∧ x ≤ 1) ∧
    (loss.softmax p).sum = 1 := by
  have hS : 0 < (p.map Real.exp).sum := loss.exp_sum_pos p hp
  refine ⟨?_, ?_, ?_, ?_⟩
  · rw [loss.softmax_eq_map]
    simp
  · intro i hi
    have hi2 : i < ((p.map Real.exp).map (fun x => x / (p.map Real.exp).sum)).length := by
      simpa using hi
    rw [loss.softmax_eq_map, List.getD_eq_getElem _ _ hi2, List.getD_eq_getElem _ _ hi]
    simp
  · intro x hx
    rw [loss.softmax_eq_map] at hx
    obtain ⟨e, he, rfl⟩ := List.mem_map.mp hx
    have he0 : 0 < e := by
      obtain ⟨y, _, rfl⟩ := List.mem_map.mp he
      exact Real.exp_pos y
    refine ⟨div_pos he0 hS, ?_⟩
    rw [div_le_one hS]
    refine List.single_le_sum (fun y hy => ?_) e he
    obtain ⟨z, _, rfl⟩ := List.mem_map.mp hy
    exact (Real.exp_pos z).le
  · rw [loss.softmax_eq_map]
    have hsum : ((p.map Real.exp).map (fun x => x / (p.map Real.exp).sum)).sum
        = (p.map Real.exp).sum / (p.map Real.exp).sum := by
      simp only [div_eq_mul_inv]
      simpa using List.sum_map_mul_right (p.map Real.exp) id ((p.map Real.exp).sum)⁻¹
    rw [hsum, div_self hS.ne']

/-- Witness for C5_softmax_normalizes at `p = [0]`. -/
theorem C5_softmax_normalizes_witness :
    (loss.softmax [(0 : ℝ)]).length = List.length [(0 : ℝ)] ∧
    (∀ i, i < List.length [(0 : ℝ)] →
      (loss.softmax [(0 : ℝ)]).getD i 0
        = Real.exp (List.getD [(0 : ℝ)] i 0) / (List.map Real.exp [(0 : ℝ)]).sum) ∧
    (∀ x ∈ loss.softmax [(0 : ℝ)], 0 < x ∧ x ≤ 1) ∧
    (loss.softmax [(0 : ℝ)]).sum = 1 :=
  C5_softmax_normalizes [0] (by simp)

/-- C6: the triplet-ranking loss equals
`max(L2(anchor, positive) - L2(anchor, negative) + margin, 0)`, and it is `0`
whenever `L2(anchor, negative) - L2(anchor, positive) ≥ margin`. -/
theorem C6_triplet_ranking (anchor positive negative : List ℝ) (margin : ℝ)
    (_h1 : anchor.length = positive.length) (_h2 : anchor.length = negative.length) :
    loss.tr anchor positive negative margin
      = max (loss.L2 anchor positive - loss.L2 anchor negative + margin) 0 ∧
    (loss.L2 anchor negative - loss.L2 anchor positive ≥ margin →
      loss.tr anchor positive negative margin = 0) := by
  have e1 := loss.L2_eq_L2_f anchor positive
  have e2 := loss.L2_eq_L2_f anchor negative
  constructor
  · rw [loss.tr, e1, e2]
  · intro hm
    rw [loss.tr, ← e1, ← e2]
    exact max_eq_right (by linarith)

/-- Witness for C6_triplet_ranking at `anchor = positive = negative = [0]`,
`margin = -1`. -/
theorem C6_triplet_ranking_witness :
    loss.tr [(0 : ℝ)] [0] [0] (-1)
      = max (loss.L2 [(0 : ℝ)] [0] - loss.L2 [(0 : ℝ)] [0] + (-1)) 0 ∧
    (loss.L2 [(0 : ℝ)] [0] - loss.L2 [(0 : ℝ)] [0] ≥ (-1) →
      loss.tr [(0 : ℝ)] [0] [0] (-1) = 0) :=
  C6_triplet_ranking [0] [0] [0] (-1) rfl rfl

/-- C7: `L1(a, a) = 0` and `L2(a, a) = 0` for every sequence `a`, and on
equal-length sequences `L1(ground, predicted) = 0` iff the sequences are
element-wise equal. -/
theorem C7_zero_iff_equal (a g p : List ℝ) (h : g.length = p.length) :
    loss.L1 a a = 0 ∧ loss.L2 a a = 0 ∧ (loss.L1 g p = 0 ↔ g = p) := by
  refine ⟨?_, ?_, ?_⟩
  · rw [loss.L1_eq_sum]
    exact loss.sum_zipWith_self_zero _ (fun x => by simp) a
  · rw [loss.L2_eq_sum, loss.sum_zipWith_self_zero _ (fun x => by simp) a, Real.sqrt_zero]
  · rw [loss.L1_eq_sum]
    exact loss.sum_abs_zero_iff g p h

/-- Witness for C7_zero_iff_equal at `a = [1]`, `g = p = [2]`. -/
theorem C7_zero_iff_equal_witness :
    loss.L1 [(1 : ℝ)] [1] = 0 ∧ loss.L2 [(1 : ℝ)] [1] = 0 ∧
    (loss.L1 [(2 : ℝ)] [2] = 0 ↔ [(2 : ℝ)] = [(2 : ℝ)]) :=
  C7_zero_iff_equal [1] [2] [2] rfl

/-- C8: `swish(z) = glu(z)` for every scalar `z`, and the common value equals
`z * sigmoid(z) = z / (1 + e^{-z})`. -/
theorem C8_swish_glu (z : ℝ) :
    activation.swish z = activation.glu z ∧
    activation.glu z = z * activation.sigmoid z ∧
    activation.glu z = z / (1 + Real.exp (-z)) := by
  refine ⟨rfl, rfl, ?_⟩
  rw [activation.glu, activation.sigmoid, mul_one_div]
